import Mathlib

/-!
Verification development for the codescoop CSS analysis core.

The JavaScript sources are shallowly embedded below:
* the specificity wrapper and cascade conflict engine
  (`src/unnamed/part_001`: `calculateSpecificity`, `compareSpecificity`,
  `hasImportant`, `analyzeConflicts`),
* the nested-selector resolver and target matcher
  (`src/unnamed/part_002`: `resolveNestedSelector`, `buildTargetSelectors`,
  `expandModernPseudoClasses`, `checkRuleMatch`),
* the ghost-class detector (`src/src/utils/ghost-detector.js`:
  `detectGhostClasses` with its `IGNORED_PATTERNS` table).

JavaScript strings are modelled through their character lists
(`String.data`); machine integers do not overflow in any of the embedded
code paths, so `Nat`/`Int` are used directly.
-/

namespace CodeScoop

/-! ### JavaScript string primitives

The embedded code uses `String.prototype.startsWith`, `includes`, `trim`,
`split`, `join` and global single-character `replace`.  They are modelled
on `List Char`. -/

/-- JS `s.startsWith(pre)`. -/
def jsStartsWith (s pre : String) : Bool :=
  pre.data.isPrefixOf s.data

/-- Substring scan: does `sub` occur contiguously in the list? -/
def containsSub (sub : List Char) : List Char → Bool
  | [] => sub.isEmpty
  | c :: cs => sub.isPrefixOf (c :: cs) || containsSub sub cs

/-- JS `s.includes(sub)`: substring containment. -/
def jsIncludes (s sub : String) : Bool :=
  containsSub sub.data s.data

/-- JS whitespace test used by `trim` and the `\s` character class. -/
def isWS (c : Char) : Bool := c.isWhitespace

/-- JS `s.trim()` on a character list. -/
def trimChars (cs : List Char) : List Char :=
  ((cs.dropWhile isWS).reverse.dropWhile isWS).reverse

/-- JS `s.trim()`. -/
def trimStr (s : String) : String := ⟨trimChars s.data⟩

/-- JS `s.split(sep)` for a one-character separator. -/
def splitChar (sep : Char) : List Char → List (List Char)
  | [] => [[]]
  | c :: cs =>
    if c = sep then [] :: splitChar sep cs
    else
      match splitChar sep cs with
      | [] => [[c]]
      | p :: ps => (c :: p) :: ps

/-- JS `arr.join(sep)`. -/
def joinWith (sep : List Char) : List (List Char) → List Char
  | [] => []
  | [p] => p
  | p :: q :: ps => p ++ sep ++ joinWith sep (q :: ps)

/-- JS `s.replace(/&/g, rep)` for a one-character global pattern:
every occurrence of `pat` is replaced by `rep`. -/
def replaceAllChar (pat : Char) (rep : List Char) : List Char → List Char
  | [] => []
  | c :: cs =>
    if c = pat then rep ++ replaceAllChar pat rep cs
    else c :: replaceAllChar pat rep cs

/-- JS replace with pattern string and empty replacement, for a plain-string pattern: only the first
occurrence is removed.  An empty pattern leaves the string unchanged
(JS would insert the empty replacement at position 0). -/
def removeFirst (pat : List Char) : List Char → List Char
  | [] => []
  | c :: cs =>
    if pat.isPrefixOf (c :: cs) then (c :: cs).drop pat.length
    else c :: removeFirst pat cs

/-- JS first-occurrence removal on strings. -/
def removeFirstStr (s pat : String) : String :=
  if pat.data = [] then s else ⟨removeFirst pat.data s.data⟩

/-! ### Specificity (`src/unnamed/part_001`)

`calculateSpecificity` delegates to the external npm `specificity`
library (the source imports calculate from the specificity package), which is not
part of this repository.  The library is modelled from the spec below
(`calcSpec`); the wrapper around it is embedded from the source. -/

/-- The `[inline, ids, classes, elements]` tuple the wrapper returns. -/
@[ext] structure Spec where
  inl : Nat
  ids : Nat
  cls : Nat
  elts : Nat
deriving DecidableEq, Repr

/-- Characters that may appear in a selector identifier. -/
def isIdentChar (c : Char) : Bool :=
  c.isAlphanum || c = '-' || c = '_'

/-- Drop a parenthesized argument up to and including the closing `)`. -/
def dropToClose : List Char → List Char
  | [] => []
  | c :: cs => if c = ')' then cs else dropToClose cs

/-- Drop an attribute selector body up to and including the closing `]`. -/
def dropToBracket : List Char → List Char
  | [] => []
  | c :: cs => if c = ']' then cs else dropToBracket cs

/-- Modelled from the spec: the counting core of the npm `specificity`
library (the repository only ships the wrapper).  Per spec §4.3 it counts
ids, classes/attributes/pseudo-classes and type selectors, with
`:where(...)` contributing zero regardless of its argument, while the
arguments of `:is()`, `:not()`, `:has()` are counted as ordinary selector
content.  `fuel` bounds the recursion (callers pass the input length). -/
def specLoop : Nat → List Char → Nat → Nat → Nat → Nat × Nat × Nat
  | 0, _, a, b, c => (a, b, c)
  | _ + 1, [], a, b, c => (a, b, c)
  | fuel + 1, ch :: rest, a, b, c =>
    if ch = '#' then
      specLoop fuel (rest.dropWhile isIdentChar) (a + 1) b c
    else if ch = '.' then
      specLoop fuel (rest.dropWhile isIdentChar) a (b + 1) c
    else if ch = '[' then
      specLoop fuel (dropToBracket rest) a (b + 1) c
    else if ch = ':' then
      if jsStartsWith ⟨rest⟩ "where(" then
        specLoop fuel (dropToClose rest) a b c
      else if jsStartsWith ⟨rest⟩ "is(" then
        specLoop fuel (rest.drop 3) a b c
      else if jsStartsWith ⟨rest⟩ "not(" then
        specLoop fuel (rest.drop 4) a b c
      else if jsStartsWith ⟨rest⟩ "has(" then
        specLoop fuel (rest.drop 4) a b c
      else
        match rest with
        | ':' :: r2 => specLoop fuel (r2.dropWhile isIdentChar) a b (c + 1)
        | _ => specLoop fuel (rest.dropWhile isIdentChar) a (b + 1) c
    else if isIdentChar ch then
      specLoop fuel (rest.dropWhile isIdentChar) a b (c + 1)
    else
      specLoop fuel rest a b c

/-- Parenthesis balance check: the modelled parser rejects selectors with
unbalanced parentheses. -/
def parensBalanced (cs : List Char) : Bool :=
  go cs 0
where
  go : List Char → Nat → Bool
    | [], depth => depth = 0
    | c :: cs, depth =>
      if c = '(' then go cs (depth + 1)
      else if c = ')' then
        match depth with
        | 0 => false
        | d + 1 => go cs d
      else go cs depth

/-- Modelled from the spec: the calculate function of the npm library,
returning
`{A, B, C}` on success and failing (`none`, the JS exception) on a
selector it cannot parse. -/
def calcSpec (s : String) : Option (Nat × Nat × Nat) :=
  if parensBalanced s.data then some (specLoop s.data.length s.data 0 0 0)
  else none

/-- Embeds `calculateSpecificity` (`src/unnamed/part_001` lines 138-156).
`none` models a non-string argument; a falsy (empty) string and a library
failure both yield the zero vector. -/
def calculateSpecificity : Option String → Spec
  | none => ⟨0, 0, 0, 0⟩
  | some s =>
    if s = "" then ⟨0, 0, 0, 0⟩
    else
      match calcSpec s with
      | some (a, b, c) => ⟨0, a, b, c⟩
      | none => ⟨0, 0, 0, 0⟩

/-- Embeds `compareSpecificity` (`src/unnamed/part_001` lines 164-170): the
`for (let i = 0; i < 4; i++)` loop over the 4-element tuple, unrolled. -/
def compareSpecificity (a b : Spec) : Int :=
  if a.inl > b.inl then 1 else if a.inl < b.inl then -1
  else if a.ids > b.ids then 1 else if a.ids < b.ids then -1
  else if a.cls > b.cls then 1 else if a.cls < b.cls then -1
  else if a.elts > b.elts then 1 else if a.elts < b.elts then -1
  else 0

/-- Embeds `hasImportant` (`src/unnamed/part_001` lines 186-188). -/
def hasImportantStr (v : String) : Bool :=
  jsIncludes v "!important"

/-! ### Cascade conflict engine (`analyzeConflicts`, `src/unnamed/part_001`)

`analyzeConflicts` first assigns each linked CSS file its index
(`fileOrder[file] = index`, later assignments overwriting earlier ones)
and gives candidates from unlisted files the `?? 999` sentinel; it then
sorts the candidate list of each property with a comparator and picks the last
element as the winner. -/

/-- One entry of the `propertyRules[prop]` array pushed in
`analyzeConflicts` (lines 225-235). -/
structure Candidate where
  selector : String
  specificity : Spec
  value : String
  hasImportant : Bool
  file : String
  fileOrder : Nat
  globalOrder : Nat
  startLine : Nat
  endLine : Nat
deriving DecidableEq, Repr

/-- Index of the last occurrence of `f` in `linked` (the
`linkedFiles.css.forEach((file, index) => fileOrder[file] = index)` loop:
a later index overwrites an earlier one). -/
def lastIndexIn (linked : List String) (f : String) : Option Nat :=
  match linked with
  | [] => none
  | x :: xs =>
    match lastIndexIn xs f with
    | some i => some (i + 1)
    | none => if x = f then some 0 else none

/-- The lookup `fileOrder[filePath] ?? 999` (line 210). -/
def fileOrderValue (linked : List String) (f : String) : Nat :=
  (lastIndexIn linked f).getD 999

/-- The sort comparator of `analyzeConflicts` (lines 249-263):
`!important` first, then specificity, then file order, then declaration
order.  Positive means `a` sorts after (outranks) `b`. -/
def ruleCmp (a b : Candidate) : Int :=
  if a.hasImportant && !b.hasImportant then 1
  else if !a.hasImportant && b.hasImportant then -1
  else
    let s := compareSpecificity a.specificity b.specificity
    if s ≠ 0 then s
    else if a.fileOrder ≠ b.fileOrder then
      (a.fileOrder : Int) - (b.fileOrder : Int)
    else (a.globalOrder : Int) - (b.globalOrder : Int)

/-- The non-strict order induced by the comparator. -/
def ruleLe (a b : Candidate) : Prop := ruleCmp a b ≤ 0

instance : DecidableRel ruleLe := fun a b => Int.decLe (ruleCmp a b) 0

/-- JS `Array.prototype.sort` with the comparator above.  The comparator
is consistent (see `ruleCmp_le_iff` below), so the JS sort returns a
permutation sorted by `ruleLe`; candidates carry pairwise distinct
`globalOrder` values, which makes that permutation unique, and the stable
`List.insertionSort` computes exactly it. -/
def sortRules (rules : List Candidate) : List Candidate :=
  List.insertionSort ruleLe rules

/-- The per-property record `conflicts[prop]` with winner, losers and hasConflict (lines 265-272). -/
structure CascadeDecision where
  winner : Candidate
  losers : List Candidate
  hasConflict : Bool
deriving DecidableEq, Repr

/-- The per-property body of `analyzeConflicts` (lines 243-273): a
property with at most one candidate is skipped (`continue`), otherwise
the winner is the last element of the sorted array and the losers are
everything before it, in ascending sorted order
(`sorted.slice(0, -1)`). -/
def propertyDecision (rules : List Candidate) : Option CascadeDecision :=
  if rules.length ≤ 1 then none
  else
    match (sortRules rules).getLast? with
    | some w => some ⟨w, (sortRules rules).dropLast,
        decide (0 < (sortRules rules).dropLast.length)⟩
    | none => none

/-! ### Nested-selector resolver (`resolveNestedSelector`,
`src/unnamed/part_002` lines 436-463) -/

/-- A postcss rule node restricted to what `resolveNestedSelector` reads:
its selector text and its parent chain.  `root` covers
the case of a missing parent or a parent that is not a rule node. -/
inductive SRule where
  | root (selector : String)
  | nested (selector : String) (parent : SRule)

/-- The selector of the rule node itself. -/
def SRule.selfSelector : SRule → String
  | .root s => s
  | .nested s _ => s

/-- The selector of the outermost ancestor of the chain. -/
def SRule.rootSelector : SRule → String
  | .root s => s
  | .nested _ p => p.rootSelector

/-- Embeds `resolveNestedSelector` on character lists.  Mirrors the source:
`&`-substitution with comma fan-out over the parent branches, otherwise
a descendant join, with the same fan-out. -/
def resolveChars : SRule → List Char
  | .root sel => sel.data
  | .nested sel p =>
    let parentSelector := resolveChars p
    if sel.data.contains '&' then
      if parentSelector.contains ',' then
        joinWith ", ".data
          (((splitChar ',' parentSelector).map trimChars).map
            (fun q => replaceAllChar '&' q sel.data))
      else replaceAllChar '&' parentSelector sel.data
    else
      if parentSelector.contains ',' then
        joinWith ", ".data
          (((splitChar ',' parentSelector).map trimChars).map
            (fun q => q ++ " ".data ++ sel.data))
      else parentSelector ++ " ".data ++ sel.data

/-- The resolver as a string-valued function. -/
def resolveNestedSelector (r : SRule) : String := ⟨resolveChars r⟩

/-! ### Target matcher (`buildTargetSelectors`,
`expandModernPseudoClasses`, `checkRuleMatch`;
`src/unnamed/part_002`) -/

/-- The `targetInfo` element identity handed to the matcher and ghost
detector. -/
structure TargetInfo where
  classes : List String
  ids : List String
  tagName : String
  dataAttributes : List String
deriving DecidableEq, Repr

/-- The four regexes built by `buildTargetSelectors`, each carrying the
escaped identifier it was built from (`escapeRegex` makes the identifier
match literally, which is how the patterns are modelled). -/
inductive Pattern where
  | classPat (v : String)
  | idPat (v : String)
  | tagPat (v : String)
  | dataPat (v : String)
deriving DecidableEq, Repr

/-- One element of the `selectors` array in `buildTargetSelectors`. -/
structure TargetSel where
  ptype : String
  value : String
  pattern : Pattern
deriving DecidableEq, Repr

/-- Embeds `buildTargetSelectors` (lines 252-292): class selectors, then id
selectors, then (only when a class or id is present) the tag selector,
then data-attribute selectors. -/
def buildTargetSelectors (info : TargetInfo) : List TargetSel :=
  (info.classes.map fun cls => ⟨"class", cls, .classPat cls⟩)
    ++ (info.ids.map fun i => ⟨"id", i, .idPat i⟩)
    ++ (if 0 < info.classes.length ∨ 0 < info.ids.length then
          [⟨"tag", info.tagName, .tagPat info.tagName⟩]
        else [])
    ++ (info.dataAttributes.map fun attr => ⟨"data-attr", attr, .dataPat attr⟩)

/-- The lookahead class `[\s,:.\[#]` of the class/id patterns. -/
def classBoundary (c : Char) : Bool :=
  isWS c || c = ',' || c = ':' || c = '.' || c = '[' || c = '#'

/-- The lookahead class `[\s,:.\[#>+~]` of the tag pattern. -/
def tagBoundary (c : Char) : Bool :=
  classBoundary c || c = '>' || c = '+' || c = '~'

/-- The combinator class `[\s,>+~]` that may precede a tag match. -/
def tagLead (c : Char) : Bool :=
  isWS c || c = ',' || c = '>' || c = '+' || c = '~'

/-- Lookahead `(?=[...]|$)`: end of input or a boundary character. -/
def boundaryOk (boundary : Char → Bool) : List Char → Bool
  | [] => true
  | c :: _ => boundary c

/-- What may follow the attribute name in the data-attribute pattern
`\[attr(?:[~|^$*]?=|\])`: a closing bracket, or an optional value
operator followed by an equals sign. -/
def dataTail : List Char → Bool
  | ']' :: _ => true
  | '=' :: _ => true
  | c :: '=' :: _ => c = '~' || c = '|' || c = '^' || c = '$' || c = '*'
  | _ => false

/-- Does the pattern match at the current position?  `prev` is the
character before the position (`none` at the start of the string). -/
def matchesHere (p : Pattern) (prev : Option Char) (cs : List Char) : Bool :=
  match p with
  | .classPat v =>
    ('.' :: v.data).isPrefixOf cs
      && boundaryOk classBoundary (cs.drop (1 + v.data.length))
  | .idPat v =>
    ('#' :: v.data).isPrefixOf cs
      && boundaryOk classBoundary (cs.drop (1 + v.data.length))
  | .tagPat v =>
    (match prev with | none => true | some c => tagLead c)
      && v.data.isPrefixOf cs
      && boundaryOk tagBoundary (cs.drop v.data.length)
  | .dataPat v =>
    ('[' :: v.data).isPrefixOf cs
      && dataTail (cs.drop (1 + v.data.length))

/-- Regex scan: try the pattern at every position of the string. -/
def scanPat (p : Pattern) : Option Char → List Char → Bool
  | prev, [] => matchesHere p prev []
  | prev, c :: cs => matchesHere p prev (c :: cs) || scanPat p (some c) cs

/-- The regex test `target.pattern.test(selector)`. -/
def patternTest (p : Pattern) (s : String) : Bool :=
  scanPat p none s.data

/-- Collect the `([^)]+)` captures of `:func(...)` occurrences, scanning
left to right as `regex.exec` with the `g` flag does.  `fuel` bounds the
recursion; every step consumes at least one character, so callers pass
the input length plus one. -/
def collectInners (fname : List Char) : Nat → List Char → List (List Char)
  | 0, _ => []
  | _ + 1, [] => []
  | fuel + 1, c :: cs =>
    let pre := ':' :: fname ++ ['(']
    if pre.isPrefixOf (c :: cs) then
      let rest := (c :: cs).drop pre.length
      let inner := rest.takeWhile (fun ch => ch ≠ ')')
      if inner.isEmpty then collectInners fname fuel cs
      else
        match rest.drop inner.length with
        | ')' :: after => inner :: collectInners fname fuel after
        | _ => collectInners fname fuel cs
    else collectInners fname fuel cs

/-- Embeds `expandModernPseudoClasses` (lines 349-369): for each of `:is`,
`:where`, `:not`, `:has` (in that order), every `:func(inner)` occurrence
of the original selector appends a space plus `inner` to the expanded
string. -/
def expandModernPseudoClasses (sel : String) : String :=
  let step (acc : List Char) (fname : String) : List Char :=
    acc ++ (collectInners fname.data (sel.data.length + 1) sel.data).foldl
      (fun l inner => l ++ (' ' :: inner)) []
  ⟨["is", "where", "not", "has"].foldl step sel.data⟩

/-- The `{matches, matchedOn}` result of `checkRuleMatch` (`matches` is
reserved syntax in Lean, hence the field name `matched`). -/
structure MatchResult where
  matched : Bool
  reasons : List String
deriving DecidableEq, Repr

/-- Embeds `checkRuleMatch` (lines 374-391): each target pattern is tested
against the original and the pseudo-class-expanded selector; a hit on
either pushes a reason string. -/
def checkRuleMatch (ruleSelector : String) (targetSelectors : List TargetSel) :
    MatchResult :=
  let expandedSelector := expandModernPseudoClasses ruleSelector
  let matchedOn := targetSelectors.filterMap fun t =>
    if patternTest t.pattern ruleSelector || patternTest t.pattern expandedSelector
    then some (t.ptype ++ ": " ++ t.value)
    else none
  ⟨decide (0 < matchedOn.length), matchedOn⟩

/-! ### Ghost-class detector (`src/src/utils/ghost-detector.js`) -/

/-- JS `Set.prototype.add` on an insertion-ordered list model. -/
def addSet (s : List String) (x : String) : List String :=
  if x ∈ s then s else s ++ [x]

/-- One element of a `result.matches` array as read by
`detectGhostClasses`: its `matchedOn` reasons and its selector.  A plain
string `matchedOn` is modelled as a one-element list
(`Array.isArray` branch of `processMatchedOn`). -/
structure GhostMatch where
  matchedOn : List String
  selector : String
deriving DecidableEq, Repr

/-- A per-file CSS analysis result as read by `detectGhostClasses`; the
source field `matches` is reserved syntax in Lean, hence `ruleMatches`. -/
structure GhostResult where
  ruleMatches : List GhostMatch
deriving DecidableEq, Repr

/-- An inline-style entry as read by `detectGhostClasses`. -/
structure InlineStyle where
  content : String
deriving DecidableEq, Repr

/-- Embeds `processMatchedOn` (lines 33-40): every item starting with
`class:` has its label removed (first occurrence, with then without the
trailing space), is trimmed, and is added to the defined set with a dot
prepended. -/
def processMatchedOn (defined : List String) (items : List String) :
    List String :=
  items.foldl
    (fun d item =>
      if jsStartsWith item "class:" then
        addSet d ("." ++ trimStr (removeFirstStr (removeFirstStr item "class: ") "class:"))
      else d)
    defined

/-- The per-result loop of `detectGhostClasses` (lines 43-56 and 59-70):
`processMatchedOn` on each match, then the literal
`selector.includes(cls)` pass over the target classes. -/
def collectDefined (classes : List String) (defined : List String)
    (results : List GhostResult) : List String :=
  results.foldl
    (fun d result =>
      result.ruleMatches.foldl
        (fun d m =>
          classes.foldl
            (fun d cls => if jsIncludes m.selector cls then addSet d cls else d)
            (processMatchedOn d m.matchedOn))
        d)
    defined

/-- The inline-style loop (lines 73-80). -/
def collectInline (classes : List String) (defined : List String)
    (styles : List InlineStyle) : List String :=
  styles.foldl
    (fun d style =>
      classes.foldl
        (fun d cls => if jsIncludes style.content cls then addSet d cls else d)
        d)
    defined

/-- The regex `/^(p|m)[xytrbl]?-\d+/`. -/
def spacingPat (s : String) : Bool :=
  match s.data with
  | c :: d :: rest =>
    (c = 'p' || c = 'm')
      && (if d = 'x' || d = 'y' || d = 't' || d = 'r' || d = 'b' || d = 'l' then
            match rest with
            | '-' :: e :: _ => e.isDigit
            | _ => false
          else
            d = '-' && (match rest with | e :: _ => e.isDigit | [] => false))
  | _ => false

/-- The regex `/^text-(xs|sm|base|lg|xl|\d+xl)/`. -/
def textSizePat (s : String) : Bool :=
  ["text-xs", "text-sm", "text-base", "text-lg", "text-xl"].any
      (fun p => jsStartsWith s p)
    || (jsStartsWith s "text-"
        && (let rest := s.data.drop 5
            let digits := rest.takeWhile Char.isDigit
            !digits.isEmpty && "xl".data.isPrefixOf (rest.drop digits.length)))

/-- The regex matching the text color utilities. -/
def textColorPat (s : String) : Bool :=
  ["black", "white", "gray", "red", "blue", "green", "yellow", "indigo",
    "purple", "pink"].any (fun c => jsStartsWith s ("text-" ++ c))

/-- The regex matching the background color utilities. -/
def bgColorPat (s : String) : Bool :=
  ["black", "white", "gray", "red", "blue", "green", "yellow", "indigo",
    "purple", "pink"].any (fun c => jsStartsWith s ("bg-" ++ c))

/-- The regex `/^font-(sans|serif|mono|bold|medium|light)/`. -/
def fontPat (s : String) : Bool :=
  ["sans", "serif", "mono", "bold", "medium", "light"].any
    (fun c => jsStartsWith s ("font-" ++ c))

/-- The regexes `/^w-\d+/` and `/^h-\d+/`. -/
def sizeNumPat (lead : Char) (s : String) : Bool :=
  match s.data with
  | c :: '-' :: e :: _ => c = lead && e.isDigit
  | _ => false

/-- The `IGNORED_PATTERNS` table (`ghost-detector.js` lines 83-116), one
entry per regex, in source order. -/
def IGNORED_PATTERNS : List (String → Bool) :=
  [spacingPat, textSizePat, textColorPat, bgColorPat, fontPat,
   fun s => jsStartsWith s "flex", fun s => jsStartsWith s "grid",
   fun s => jsStartsWith s "block", fun s => jsStartsWith s "hidden",
   fun s => jsStartsWith s "inline",
   sizeNumPat 'w', sizeNumPat 'h',
   fun s => jsStartsWith s "w-full", fun s => jsStartsWith s "h-full",
   fun s => jsStartsWith s "min-w", fun s => jsStartsWith s "max-w",
   fun s => jsStartsWith s "border", fun s => jsStartsWith s "rounded",
   fun s => jsStartsWith s "shadow",
   fun s => jsStartsWith s "items-", fun s => jsStartsWith s "justify-",
   fun s => jsStartsWith s "place-", fun s => jsStartsWith s "gap-",
   fun s => jsStartsWith s "absolute", fun s => jsStartsWith s "relative",
   fun s => jsStartsWith s "fixed", fun s => jsStartsWith s "sticky",
   fun s => jsStartsWith s "top-", fun s => jsStartsWith s "bottom-",
   fun s => jsStartsWith s "left-", fun s => jsStartsWith s "right-",
   fun s => jsStartsWith s "z-",
   fun s => jsStartsWith s "opacity-", fun s => jsStartsWith s "cursor-",
   fun s => jsStartsWith s "pointer-events-",
   fun s => jsStartsWith s "transition", fun s => jsStartsWith s "duration-",
   fun s => jsStartsWith s "ease-",
   fun s => jsStartsWith s "hover:", fun s => jsStartsWith s "focus:",
   fun s => jsStartsWith s "active:", fun s => jsStartsWith s "group-hover:",
   fun s => jsStartsWith s "sm:", fun s => jsStartsWith s "md:",
   fun s => jsStartsWith s "lg:", fun s => jsStartsWith s "xl:",
   fun s => jsStartsWith s "2xl:",
   fun s => jsStartsWith s "col-", fun s => jsStartsWith s "row",
   fun s => jsStartsWith s "container", fun s => jsStartsWith s "btn-",
   fun s => jsStartsWith s "alert-", fun s => jsStartsWith s "card-",
   fun s => jsStartsWith s "navbar-", fun s => jsStartsWith s "nav-",
   fun s => jsStartsWith s "dropdown-", fun s => jsStartsWith s "modal-",
   fun s => jsStartsWith s "tab-", fun s => jsStartsWith s "form-",
   fun s => jsStartsWith s "fa-", fun s => jsStartsWith s "icon-",
   fun s => jsStartsWith s "material-", fun s => jsStartsWith s "bi-",
   fun s => jsStartsWith s "ri-", fun s => jsStartsWith s "bx-",
   fun s => jsStartsWith s "js-", fun s => jsStartsWith s "is-",
   fun s => jsStartsWith s "has-", fun s => jsStartsWith s "active",
   fun s => jsStartsWith s "open", fun s => jsStartsWith s "show",
   fun s => jsStartsWith s "visible",
   fun s => jsStartsWith s "animate__", fun s => jsStartsWith s "aos-",
   fun s => jsStartsWith s "fade", fun s => jsStartsWith s "slide",
   fun s => jsStartsWith s "zoom",
   fun s => jsStartsWith s "u-", fun s => jsStartsWith s "util-",
   fun s => jsStartsWith s "helper-"]

/-- The dotted form: the class as given when it already starts with a
dot, otherwise with a dot prepended (source ternary). -/
def dotName (cls : String) : String :=
  if jsStartsWith cls "." then cls else "." ++ cls

/-- The undotted form: a leading dot is dropped (source ternary). -/
def cleanName (cls : String) : String :=
  if jsStartsWith cls "." then ⟨cls.data.drop 1⟩ else cls

/-- The utility-table test: does any table regex accept the name. -/
def isUtility (s : String) : Bool :=
  IGNORED_PATTERNS.any (fun p => p s)

/-- The ghost filter predicate (lines 119-135): not a ghost when defined
under its dotted or as-given form, nor when it matches the utility
table. -/
def ghostPred (defined : List String) (cls : String) : Bool :=
  if dotName cls ∈ defined ∨ cls ∈ defined then false
  else if isUtility (cleanName cls) then false
  else true

/-- The report returned by `detectGhostClasses`.  The early return for an
empty class list carries no `hasGhosts` key at all (the field is
`undefined` in JS), which `Option Bool` models as `none`. -/
structure GhostReport where
  ghostClasses : List String
  definedClasses : List String
  totalClasses : Nat
  hasGhosts : Option Bool
deriving DecidableEq, Repr

/-- Embeds `detectGhostClasses` (`ghost-detector.js` lines 18-143). -/
def detectGhostClasses (targetInfo : TargetInfo) (cssResults : List GhostResult)
    (cssLibraryResults : List GhostResult) (inlineStyles : List InlineStyle) :
    GhostReport :=
  let classes := targetInfo.classes
  if classes.isEmpty then ⟨[], [], 0, none⟩
  else
    let defined := collectInline classes
      (collectDefined classes (collectDefined classes [] cssResults)
        cssLibraryResults)
      inlineStyles
    let ghostClasses := classes.filter (ghostPred defined)
    ⟨ghostClasses, defined, classes.length,
      some (decide (0 < ghostClasses.length))⟩

/-! ## Order theory of the cascade comparator

`ruleCmp` is the lexicographic comparison of a numeric key; this gives
transitivity and totality of `ruleLe`, which the sort proofs need. -/

/-- Non-strict lexicographic comparison of numeric lists. -/
def lexLeB : List Nat → List Nat → Bool
  | [], _ => true
  | _ :: _, [] => false
  | x :: xs, y :: ys =>
    if x < y then true else if y < x then false else lexLeB xs ys

theorem lexLeB_total : ∀ x y : List Nat, lexLeB x y = true ∨ lexLeB y x = true
  | [], _ => by left; rfl
  | _ :: _, [] => by right; rfl
  | x :: xs, y :: ys => by
    simp only [lexLeB]
    rcases lexLeB_total xs ys with h | h <;> split_ifs <;> simp [h]

theorem lexLeB_trans :
    ∀ x y z : List Nat, lexLeB x y = true → lexLeB y z = true →
      lexLeB x z = true
  | [], _, _, _, _ => rfl
  | _ :: _, [], _, h1, _ => by simp [lexLeB] at h1
  | _ :: _, _ :: _, [], _, h2 => by simp [lexLeB] at h2
  | x :: xs, y :: ys, z :: zs, h1, h2 => by
    simp only [lexLeB] at h1 h2 ⊢
    split_ifs at h1 h2 ⊢ <;> try omega
    all_goals try simp_all
    all_goals exact lexLeB_trans xs ys zs h1 h2

theorem lexLeB_append :
    ∀ (l1 l2 t1 t2 : List Nat), l1.length = l2.length →
      lexLeB (l1 ++ t1) (l2 ++ t2)
        = if l1 = l2 then lexLeB t1 t2 else lexLeB l1 l2
  | [], [], t1, t2, _ => by simp
  | x :: xs, y :: ys, t1, t2, h => by
    have h2 : xs.length = ys.length := by simpa using h
    have hrec := lexLeB_append xs ys t1 t2 h2
    rcases Nat.lt_trichotomy x y with hxy | hxy | hxy
    · have hne : x ≠ y := Nat.ne_of_lt hxy
      simp [List.cons_append, lexLeB, hxy, hne]
    · subst hxy
      by_cases hxs : xs = ys
      · subst hxs
        simp [List.cons_append, lexLeB, hrec]
      · simp [List.cons_append, lexLeB, hxs, hrec]
    · have hne : ¬ x = y := by omega
      have hnlt : ¬ x < y := by omega
      simp [List.cons_append, lexLeB, hxy, hne, hnlt]

/-- The sort key of the four specificity slots, in comparison order. -/
def specKey (s : Spec) : List Nat := [s.inl, s.ids, s.cls, s.elts]

/-- The full sort key of the comparator: `!important` flag, specificity
slots, file order, declaration order. -/
def candKey (r : Candidate) : List Nat :=
  (if r.hasImportant then 1 else 0) :: specKey r.specificity
    ++ [r.fileOrder, r.globalOrder]

theorem compareSpecificity_eq_zero_iff (x y : Spec) :
    compareSpecificity x y = 0 ↔ x = y := by
  unfold compareSpecificity
  split_ifs <;> simp [Spec.ext_iff] <;> omega

theorem compareSpecificity_le_zero_iff (x y : Spec) :
    compareSpecificity x y ≤ 0 ↔ lexLeB (specKey x) (specKey y) = true := by
  unfold compareSpecificity specKey
  simp only [lexLeB]
  split_ifs <;> simp <;> omega

theorem specKey_inj {x y : Spec} (h : specKey x = specKey y) : x = y := by
  obtain ⟨i1, i2, i3, i4⟩ := x
  obtain ⟨j1, j2, j3, j4⟩ := y
  simpa [specKey, Spec.mk.injEq] using h

theorem lexLeB_cons_self (x : Nat) (xs ys : List Nat) :
    lexLeB (x :: xs) (x :: ys) = lexLeB xs ys := by
  simp [lexLeB]

theorem ruleCmp_le_iff (a b : Candidate) :
    ruleCmp a b ≤ 0 ↔ lexLeB (candKey a) (candKey b) = true := by
  have happ := lexLeB_append (specKey a.specificity) (specKey b.specificity)
    [a.fileOrder, a.globalOrder] [b.fileOrder, b.globalOrder] (by simp [specKey])
  have main :
      ((if compareSpecificity a.specificity b.specificity ≠ 0 then
          compareSpecificity a.specificity b.specificity
        else if a.fileOrder ≠ b.fileOrder then
          (a.fileOrder : Int) - (b.fileOrder : Int)
        else (a.globalOrder : Int) - (b.globalOrder : Int)) ≤ 0)
      ↔ lexLeB (specKey a.specificity ++ [a.fileOrder, a.globalOrder])
          (specKey b.specificity ++ [b.fileOrder, b.globalOrder]) = true := by
    rw [happ]
    by_cases hs : compareSpecificity a.specificity b.specificity = 0
    · have hk : specKey a.specificity = specKey b.specificity := by
        rw [(compareSpecificity_eq_zero_iff _ _).mp hs]
      rw [if_pos hk, if_neg (by simp [hs])]
      simp only [lexLeB]
      split_ifs <;> simp <;> omega
    · have hk : specKey a.specificity ≠ specKey b.specificity :=
        fun hh => hs ((compareSpecificity_eq_zero_iff _ _).mpr (specKey_inj hh))
      rw [if_neg hk, if_pos hs]
      exact compareSpecificity_le_zero_iff _ _
  cases ha : a.hasImportant <;> cases hb : b.hasImportant
  · simp only [ruleCmp, candKey, ha, hb, Bool.not_false, Bool.and_false,
      Bool.false_and, Bool.false_eq_true, if_false, List.cons_append]
    rw [lexLeB_cons_self 0 (specKey a.specificity ++ [a.fileOrder, a.globalOrder])
      (specKey b.specificity ++ [b.fileOrder, b.globalOrder])]
    exact main
  · simp [ruleCmp, candKey, ha, hb, lexLeB]
  · simp [ruleCmp, candKey, ha, hb, lexLeB]
  · simp only [ruleCmp, candKey, ha, hb, Bool.not_true, Bool.and_false,
      Bool.true_and, Bool.false_and, Bool.and_self, Bool.false_eq_true,
      if_false, if_true, ite_true, List.cons_append]
    rw [lexLeB_cons_self 1 (specKey a.specificity ++ [a.fileOrder, a.globalOrder])
      (specKey b.specificity ++ [b.fileOrder, b.globalOrder])]
    exact main

instance : IsTotal Candidate ruleLe :=
  ⟨fun a b => by
    rcases lexLeB_total (candKey a) (candKey b) with h | h
    · exact Or.inl ((ruleCmp_le_iff a b).mpr h)
    · exact Or.inr ((ruleCmp_le_iff b a).mpr h)⟩

instance : IsTrans Candidate ruleLe :=
  ⟨fun a b c h1 h2 =>
    (ruleCmp_le_iff a c).mpr
      (lexLeB_trans _ _ _ ((ruleCmp_le_iff a b).mp h1)
        ((ruleCmp_le_iff b c).mp h2))⟩

/-! ## Claim-side order (C1)

`specLexHigher` and `outranks` transcribe the ranking rules of the claim:
`!important` first, then the 4-tuple lexicographically (most-significant
term first), then later file, then later declaration. -/

/-- The claim reading of a higher SpecificityVector: lexicographic,
most-significant term first. -/
def specLexHigher (x y : Spec) : Prop :=
  y.inl < x.inl ∨ (x.inl = y.inl ∧ (y.ids < x.ids ∨ (x.ids = y.ids ∧
    (y.cls < x.cls ∨ (x.cls = y.cls ∧ y.elts < x.elts)))))

instance (x y : Spec) : Decidable (specLexHigher x y) := by
  unfold specLexHigher; infer_instance

/-- The total order of the claim: `a` outranks `b`. -/
def outranks (a b : Candidate) : Prop :=
  (a.hasImportant = true ∧ b.hasImportant = false)
    ∨ (a.hasImportant = b.hasImportant
        ∧ specLexHigher a.specificity b.specificity)
    ∨ (a.hasImportant = b.hasImportant ∧ a.specificity = b.specificity
        ∧ b.fileOrder < a.fileOrder)
    ∨ (a.hasImportant = b.hasImportant ∧ a.specificity = b.specificity
        ∧ a.fileOrder = b.fileOrder ∧ b.globalOrder < a.globalOrder)

instance (a b : Candidate) : Decidable (outranks a b) := by
  unfold outranks; infer_instance

theorem compareSpecificity_pos_iff (x y : Spec) :
    0 < compareSpecificity x y ↔ specLexHigher x y := by
  unfold compareSpecificity specLexHigher
  split_ifs <;> simp <;> omega

theorem specLexHigher_irrefl (x : Spec) : ¬ specLexHigher x x := by
  unfold specLexHigher; omega

theorem ruleCmp_pos_iff (a b : Candidate) :
    0 < ruleCmp a b ↔ outranks a b := by
  cases ha : a.hasImportant <;> cases hb : b.hasImportant
  case false.false | true.true =>
    all_goals (
      simp only [ruleCmp, outranks, ha, hb, Bool.not_false, Bool.not_true,
        Bool.and_false, Bool.false_and, Bool.true_and, Bool.and_self,
        Bool.false_eq_true, Bool.true_eq_false, if_false, false_and,
        and_false, false_or, or_false, true_and]
      by_cases hs : compareSpecificity a.specificity b.specificity = 0
      · have hx : a.specificity = b.specificity :=
          (compareSpecificity_eq_zero_iff _ _).mp hs
        rw [if_neg (by simp [hs])]
        simp only [hx, specLexHigher_irrefl, false_or, and_false, true_and,
          false_and]
        split_ifs <;> simp_all
      · have hx : ¬ a.specificity = b.specificity :=
          fun hh => hs ((compareSpecificity_eq_zero_iff _ _).mpr hh)
        rw [if_pos hs]
        simp only [hx, false_and, and_false, or_false]
        exact compareSpecificity_pos_iff _ _)
  case false.true =>
    simp [ruleCmp, outranks, ha, hb]
  case true.false =>
    simp [ruleCmp, outranks, ha, hb]

/-! ## Demo conflict for C1/C2: three candidates for one property -/

/-- The linked stylesheets of the demo conflict. -/
def demoLinked : List String := ["a.css", "b.css"]

/-- Specificity `(0,1,0,0)`, no `!important`, earlier file. -/
def demoLow : Candidate :=
  ⟨".low", ⟨0, 1, 0, 0⟩, "red", hasImportantStr "red", "a.css",
    fileOrderValue demoLinked "a.css", 0, 1, 1⟩

/-- Specificity `(0,2,0,0)`, no `!important`, later file. -/
def demoMid : Candidate :=
  ⟨".mid.x", ⟨0, 2, 0, 0⟩, "blue", hasImportantStr "blue", "b.css",
    fileOrderValue demoLinked "b.css", 1, 1, 1⟩

/-- Specificity `(0,0,0,0)` with `!important`, earlier file. -/
def demoImp : Candidate :=
  ⟨".imp", ⟨0, 0, 0, 0⟩, "green !important",
    hasImportantStr "green !important", "a.css",
    fileOrderValue demoLinked "a.css", 2, 2, 2⟩

/-- Claim C1: the cascade engine ranks candidates by the stated total
order: `!important` beats non-`!important`; among ties the higher
specificity 4-tuple (lexicographic, most-significant first) wins; among
further ties the later file wins; among same-file-order ties the later
declaration wins.  In particular, for candidates of specificity
`(0,1,0,0)`, `(0,2,0,0)` in a later file, and `(0,0,0,0)` with
`!important`, the `!important` candidate is the cascade winner. -/
theorem c1_cascade_total_order :
    (∀ a b : Candidate, 0 < ruleCmp a b ↔ outranks a b)
      ∧ (propertyDecision [demoLow, demoMid, demoImp]).map
          CascadeDecision.winner = some demoImp :=
  ⟨ruleCmp_pos_iff, by decide⟩

/-- Witness for C1: the theorem applied to the `!important` candidate
against the higher-specificity one. -/
theorem c1_cascade_total_order_witness :
    0 < ruleCmp demoImp demoMid :=
  (c1_cascade_total_order.1 demoImp demoMid).mpr (Or.inl ⟨by decide, by decide⟩)

/-- Claim C2 counterexample: on the demo conflict the emitted decision
lists the losers in ascending rank order, so the first loser is the
lowest-ranked candidate and the second loser outranks it; the
highest-ranked losing competitor is last, not first. -/
theorem c2_losers_order_counterexample :
    (propertyDecision [demoLow, demoMid, demoImp]).map CascadeDecision.losers
        = some [demoLow, demoMid]
      ∧ 0 < ruleCmp demoMid demoLow := by
  constructor
  · decide
  · decide

/-- Claim C2 (amended): every emitted decision has exactly one winner,
namely a highest-ranked candidate; the losers are the remaining
candidates, returned in ascending rank order, so the closest competitor
is the last entry of the losers array (the markdown formatter reverses
the array for display). -/
theorem c2_decision_amended (rules : List Candidate) (d : CascadeDecision)
    (h : propertyDecision rules = some d) :
    (d.losers ++ [d.winner]).Perm rules
      ∧ List.Sorted ruleLe d.losers
      ∧ ∀ l ∈ d.losers, ruleLe l d.winner := by
  unfold propertyDecision at h
  split at h
  · simp at h
  · cases hlast : (sortRules rules).getLast? with
    | none => rw [hlast] at h; simp at h
    | some w =>
      rw [hlast] at h
      simp only [Option.some.injEq] at h
      subst h
      have hdec : (sortRules rules).dropLast ++ [w] = sortRules rules :=
        List.dropLast_append_getLast? w hlast
      have hperm : (sortRules rules).Perm rules :=
        List.perm_insertionSort ruleLe rules
      have hsort : List.Pairwise ruleLe ((sortRules rules).dropLast ++ [w]) := by
        rw [hdec]
        exact List.sorted_insertionSort ruleLe rules
      have htriple := List.pairwise_append.mp hsort
      refine ⟨?_, htriple.1, ?_⟩
      · rw [hdec]; exact hperm
      · intro l hl
        exact htriple.2.2 l hl w (List.mem_singleton_self w)

/-- Witness for C2 (amended): the theorem applied to the demo conflict. -/
theorem c2_decision_amended_witness :
    ((([demoLow, demoMid] : List Candidate) ++ [demoImp]).Perm
        [demoLow, demoMid, demoImp])
      ∧ List.Sorted ruleLe [demoLow, demoMid]
      ∧ ∀ l ∈ ([demoLow, demoMid] : List Candidate), ruleLe l demoImp :=
  c2_decision_amended [demoLow, demoMid, demoImp]
    ⟨demoImp, [demoLow, demoMid], true⟩ (by decide)

/-! ## C10: the 999 sentinel for unlisted files -/

theorem lastIndexIn_eq_none {linked : List String} {f : String}
    (h : f ∉ linked) : lastIndexIn linked f = none := by
  induction linked with
  | nil => rfl
  | cons x xs ih =>
    have hx : x ≠ f := fun hh => h (hh ▸ List.mem_cons_self x xs)
    have hxs : f ∉ xs := fun hh => h (List.mem_cons_of_mem x hh)
    simp [lastIndexIn, ih hxs, hx]

theorem lastIndexIn_lt_length {linked : List String} {f : String}
    (h : f ∈ linked) :
    ∃ i, lastIndexIn linked f = some i ∧ i < linked.length := by
  induction linked with
  | nil => cases h
  | cons x xs ih =>
    by_cases hf : f ∈ xs
    · obtain ⟨i, hi, hlt⟩ := ih hf
      exact ⟨i + 1, by simp [lastIndexIn, hi], by simp; omega⟩
    · have hx : x = f := by
        rcases List.mem_cons.mp h with hh | hh
        · exact hh.symm
        · exact absurd hh hf
      refine ⟨0, ?_, by simp⟩
      simp [lastIndexIn, lastIndexIn_eq_none hf, hx]

/-- Claim C10: a candidate from a file missing from the linked-stylesheet
list gets the sentinel file order `999`; hence with fewer than 999 linked
files, among candidates tying on `!important` and specificity, a
declaration from an unlisted file outranks, and wins a two-way conflict
against, a declaration from any listed file. -/
theorem c10_unlisted_file_order (linked : List String) (a b : Candidate)
    (hfa : a.fileOrder = fileOrderValue linked a.file)
    (hfb : b.fileOrder = fileOrderValue linked b.file)
    (hna : a.file ∉ linked) (hmb : b.file ∈ linked)
    (hlen : linked.length < 999)
    (himp : a.hasImportant = b.hasImportant)
    (hspec : compareSpecificity a.specificity b.specificity = 0) :
    a.fileOrder = 999 ∧ 0 < ruleCmp a b
      ∧ (propertyDecision [b, a]).map CascadeDecision.winner = some a := by
  have hfoa : a.fileOrder = 999 := by
    rw [hfa]
    unfold fileOrderValue
    rw [lastIndexIn_eq_none hna]
    rfl
  obtain ⟨i, hi, hilt⟩ := lastIndexIn_lt_length hmb
  have hfob : b.fileOrder = i := by
    rw [hfb]
    unfold fileOrderValue
    rw [hi]
    rfl
  have hfne : a.fileOrder ≠ b.fileOrder := by omega
  have hcmp : 0 < ruleCmp a b := by
    unfold ruleCmp
    rw [himp]
    cases hbv : b.hasImportant <;>
      simp only [Bool.not_false, Bool.not_true, Bool.and_false,
        Bool.false_and, Bool.and_self, Bool.false_eq_true, if_false] <;>
      rw [if_neg (by simp [hspec]), if_pos hfne] <;>
      omega
  have hnab : ¬ ruleLe a b := by
    unfold ruleLe
    omega
  have hba : ruleLe b a := (total_of ruleLe a b).resolve_left hnab
  refine ⟨hfoa, hcmp, ?_⟩
  have hsort : sortRules [b, a] = [b, a] := by
    unfold sortRules
    simp only [List.insertionSort, List.orderedInsert]
    rw [if_pos hba]
  unfold propertyDecision
  rw [if_neg (by simp : ¬ ([b, a] : List Candidate).length ≤ 1)]
  rw [hsort]
  simp

/-- A candidate from a file absent from the one-entry linked list. -/
def unlistedCand : Candidate :=
  ⟨".a", ⟨0, 0, 1, 0⟩, "blue", hasImportantStr "blue", "other.css",
    fileOrderValue ["style.css"] "other.css", 1, 1, 1⟩

/-- A candidate from the listed file. -/
def listedCand : Candidate :=
  ⟨".b", ⟨0, 0, 1, 0⟩, "red", hasImportantStr "red", "style.css",
    fileOrderValue ["style.css"] "style.css", 0, 1, 1⟩

/-- Witness for C10: with one linked file, the unlisted candidate gets
order 999 and wins the two-way conflict. -/
theorem c10_unlisted_file_order_witness :
    unlistedCand.fileOrder = 999 ∧ 0 < ruleCmp unlistedCand listedCand
      ∧ (propertyDecision [listedCand, unlistedCand]).map
          CascadeDecision.winner = some unlistedCand :=
  c10_unlisted_file_order ["style.css"] unlistedCand listedCand
    rfl rfl (by decide) (by decide) (by decide) (by decide) (by decide)

/-! ## C4: specificity values -/

/-- Claim C4: `:where(.a, .b)` has specificity `(0,0,0,0)`; `:is(.a, .b)`
has class term at least 1; `#id .cls` is exactly `(0,1,1,0)`; and the
leading inline-style slot of the returned tuple is zero for every
input. -/
theorem c4_specificity_values :
    calculateSpecificity (some ":where(.a, .b)") = ⟨0, 0, 0, 0⟩
      ∧ 1 ≤ (calculateSpecificity (some ":is(.a, .b)")).cls
      ∧ calculateSpecificity (some "#id .cls") = ⟨0, 1, 1, 0⟩
      ∧ ∀ sel, (calculateSpecificity sel).inl = 0 := by
  refine ⟨by decide, by decide, by decide, ?_⟩
  intro sel
  cases sel with
  | none => rfl
  | some s =>
    simp only [calculateSpecificity]
    by_cases h : s = ""
    · simp [h]
    · rw [if_neg h]
      rcases hc : calcSpec s with _ | ⟨x, y, z⟩ <;> simp [hc]

/-! ## C7: totality and local recovery -/

/-- Claim C7 counterexample: with a target identity whose tag name is the
empty string (and a nonempty class list, so the tag selector is built),
the empty selector matches: the empty tag pattern matches the empty
string, so the matcher returns `matches: true` with reason `tag: `. -/
theorem c7_empty_selector_counterexample :
    checkRuleMatch "" (buildTargetSelectors ⟨["a"], [], "", []⟩)
      = ⟨true, ["tag: "]⟩ := by decide

/-- Claim C7 (amended): matching and specificity computation are total;
for every identity with a nonempty tag name the matcher yields
`{matches: false, reasons: []}` on the empty selector (the matcher parses
nothing, so "unparseable" input reduces to the empty case); a selector
the specificity calculator cannot parse, or a non-string input, yields
the zero vector; parse failures are recovered locally. -/
theorem c7_error_policy_amended :
    (∀ info : TargetInfo, info.tagName ≠ "" →
        checkRuleMatch "" (buildTargetSelectors info) = ⟨false, []⟩)
      ∧ (∀ s, calcSpec s = none →
          calculateSpecificity (some s) = ⟨0, 0, 0, 0⟩)
      ∧ calculateSpecificity none = ⟨0, 0, 0, 0⟩ := by
  refine ⟨?_, ?_, rfl⟩
  · intro info htag
    have hvne : info.tagName.data ≠ [] := by
      intro hnil
      exact htag (String.ext (hnil.trans rfl))
    have hpat : ∀ t ∈ buildTargetSelectors info,
        patternTest t.pattern "" = false := by
      intro t ht
      unfold buildTargetSelectors at ht
      simp only [List.mem_append, List.mem_map] at ht
      rcases ht with ((⟨cls, _, rfl⟩ | ⟨i, _, rfl⟩) | hmid) | ⟨attr, _, rfl⟩
      · rfl
      · rfl
      · have htagsel : t = ⟨"tag", info.tagName, .tagPat info.tagName⟩ := by
          rcases hcond : decide (0 < info.classes.length ∨ 0 < info.ids.length) with _ | _
          all_goals
            first
              | (rw [if_pos (of_decide_eq_true hcond)] at hmid
                 simpa using hmid)
              | (rw [if_neg (of_decide_eq_false hcond)] at hmid
                 simp at hmid)
        subst htagsel
        cases hv : info.tagName.data with
        | nil => exact absurd hv hvne
        | cons c cs => simp [patternTest, scanPat, matchesHere, hv]
      · rfl
    have hfm : ((buildTargetSelectors info).filterMap fun t =>
        if patternTest t.pattern "" ||
            patternTest t.pattern (expandModernPseudoClasses "")
        then some (t.ptype ++ ": " ++ t.value) else none) = [] := by
      rw [List.filterMap_eq_nil_iff]
      intro t ht
      rw [show expandModernPseudoClasses "" = "" from rfl]
      rw [hpat t ht]
      simp
    simp only [checkRuleMatch]
    rw [hfm]
    rfl
  · intro s h
    simp only [calculateSpecificity]
    by_cases hs : s = ""
    · simp [hs]
    · rw [if_neg hs, h]

/-- Witness for C7 (amended): a concrete identity with tag `div` on the
empty selector, and the concrete unparseable selector `(`. -/
theorem c7_error_policy_amended_witness :
    checkRuleMatch "" (buildTargetSelectors ⟨["a"], [], "div", []⟩)
        = ⟨false, []⟩
      ∧ calculateSpecificity (some "(") = ⟨0, 0, 0, 0⟩ :=
  ⟨c7_error_policy_amended.1 ⟨["a"], [], "div", []⟩ (by decide),
    c7_error_policy_amended.2.1 "(" (by decide)⟩

/-! ## C3: nested-selector resolution -/

theorem mem_replaceAllChar {c pat : Char} {rep : List Char} :
    ∀ {l : List Char}, c ∈ replaceAllChar pat rep l →
      c ∈ rep ∨ (c ∈ l ∧ c ≠ pat)
  | [], h => absurd h (List.not_mem_nil c)
  | hd :: tl, h => by
    by_cases hh : hd = pat
    · rw [replaceAllChar, if_pos hh] at h
      rcases List.mem_append.mp h with h1 | h1
      · exact Or.inl h1
      · rcases mem_replaceAllChar h1 with h2 | ⟨h2, h3⟩
        · exact Or.inl h2
        · exact Or.inr ⟨List.mem_cons_of_mem hd h2, h3⟩
    · rw [replaceAllChar, if_neg hh] at h
      rcases List.mem_cons.mp h with h1 | h1
      · exact Or.inr ⟨h1 ▸ List.mem_cons_self hd tl, h1 ▸ hh⟩
      · rcases mem_replaceAllChar h1 with h2 | ⟨h2, h3⟩
        · exact Or.inl h2
        · exact Or.inr ⟨List.mem_cons_of_mem hd h2, h3⟩

theorem mem_of_mem_splitChar {c : Char} {sep : Char} :
    ∀ {l : List Char} {p : List Char},
      p ∈ splitChar sep l → c ∈ p → c ∈ l
  | [], p, hp, hc => by
    simp [splitChar] at hp
    subst hp
    exact absurd hc (List.not_mem_nil c)
  | hd :: tl, p, hp, hc => by
    by_cases hh : hd = sep
    · rw [splitChar, if_pos hh] at hp
      rcases List.mem_cons.mp hp with h1 | h1
      · subst h1; exact absurd hc (List.not_mem_nil c)
      · exact List.mem_cons_of_mem hd (mem_of_mem_splitChar h1 hc)
    · rw [splitChar, if_neg hh] at hp
      rcases hrec : splitChar sep tl with _ | ⟨q, qs⟩
      · rw [hrec] at hp
        simp at hp
        subst hp
        have hc2 : c = hd := List.mem_singleton.mp hc
        exact hc2 ▸ List.mem_cons_self hd tl
      · rw [hrec] at hp
        rcases List.mem_cons.mp hp with h1 | h1
        · subst h1
          rcases List.mem_cons.mp hc with h2 | h2
          · exact h2 ▸ List.mem_cons_self hd tl
          · refine List.mem_cons_of_mem hd
              (mem_of_mem_splitChar (hrec ▸ List.mem_cons_self q qs) h2)
        · exact List.mem_cons_of_mem hd
            (mem_of_mem_splitChar (hrec ▸ List.mem_cons_of_mem q h1) hc)

theorem mem_of_mem_trimChars {c : Char} {l : List Char}
    (h : c ∈ trimChars l) : c ∈ l := by
  unfold trimChars at h
  rw [List.mem_reverse] at h
  have h1 := (List.dropWhile_sublist isWS).mem h
  rw [List.mem_reverse] at h1
  exact (List.dropWhile_sublist isWS).mem h1

theorem mem_joinWith {c : Char} {sep : List Char} :
    ∀ {ps : List (List Char)}, c ∈ joinWith sep ps →
      c ∈ sep ∨ ∃ p ∈ ps, c ∈ p
  | [], h => absurd h (List.not_mem_nil c)
  | [p], h => Or.inr ⟨p, List.mem_singleton_self p, h⟩
  | p :: q :: ps, h => by
    rw [joinWith] at h
    rcases List.mem_append.mp h with h1 | h1
    · rcases List.mem_append.mp h1 with h2 | h2
      · exact Or.inr ⟨p, List.mem_cons_self p _, h2⟩
      · exact Or.inl h2
    · rcases mem_joinWith h1 with h2 | ⟨r, hr, hcr⟩
      · exact Or.inl h2
      · exact Or.inr ⟨r, List.mem_cons_of_mem p hr, hcr⟩

theorem resolveChars_no_amp :
    ∀ r : SRule, '&' ∉ (SRule.rootSelector r).data → '&' ∉ resolveChars r
  | .root sel, h => h
  | .nested sel p, h => by
    have ih : '&' ∉ resolveChars p := resolveChars_no_amp p h
    intro hmem
    unfold resolveChars at hmem
    by_cases hamp : sel.data.contains '&'
    · rw [if_pos hamp] at hmem
      by_cases hcomma : (resolveChars p).contains ','
      · rw [if_pos hcomma] at hmem
        rcases mem_joinWith hmem with h1 | ⟨piece, hp, hcp⟩
        · simp at h1
        · simp only [List.map_map, List.mem_map] at hp
          obtain ⟨branch, hb, rfl⟩ := hp
          rcases mem_replaceAllChar hcp with h2 | ⟨_, h3⟩
          · exact ih (mem_of_mem_splitChar hb (mem_of_mem_trimChars h2))
          · exact h3 rfl
      · rw [if_neg hcomma] at hmem
        rcases mem_replaceAllChar hmem with h2 | ⟨_, h3⟩
        · exact ih h2
        · exact h3 rfl
    · have hsel : '&' ∉ sel.data := by
        intro hx
        exact hamp (List.elem_eq_true_of_mem hx)
      rw [if_neg hamp] at hmem
      by_cases hcomma : (resolveChars p).contains ','
      · rw [if_pos hcomma] at hmem
        rcases mem_joinWith hmem with h1 | ⟨piece, hp, hcp⟩
        · simp at h1
        · simp only [List.map_map, List.mem_map] at hp
          obtain ⟨branch, hb, rfl⟩ := hp
          rcases List.mem_append.mp hcp with h2 | h2
          · rcases List.mem_append.mp h2 with h3 | h3
            · exact ih (mem_of_mem_splitChar hb (mem_of_mem_trimChars h3))
            · simp at h3
          · exact hsel h2
      · rw [if_neg hcomma] at hmem
        rcases List.mem_append.mp hmem with h2 | h2
        · rcases List.mem_append.mp h2 with h3 | h3
          · exact ih h3
          · simp at h3
        · exact hsel h2

/-- Claim C3 counterexample: a rule inside the scope of the claim (its
selector contains `&`, its resolved parent selector is comma-separated)
whose resolved selector still contains `&`, because the root selector of
the parent chain itself starts with `&`. -/
theorem c3_unresolved_amp_counterexample :
    ("&--x" : String).data.contains '&' = true
      ∧ (resolveChars (.root "&p, .b")).contains ',' = true
      ∧ '&' ∈ resolveChars (.nested "&--x" (.root "&p, .b"))
      ∧ resolveNestedSelector (.nested "&--x" (.root "&p, .b"))
          = "&p--x, .b--x" := by decide

/-- Claim C3 (amended): for a rule whose selector contains `&` and whose
resolved parent selector is comma-separated, resolution fans out into one
branch per parent alternative, in parent order, with every `&` replaced
by that (trimmed) branch, joined back with a comma; in particular parents
`.a, .b` with child `&--x` yield exactly the branches `.a--x` and
`.b--x`; and a resolved selector is free of `&` whenever the root
selector of the chain is (an `&` can also survive from an `&` in the parentless
root selector, which nothing ever substitutes). -/
theorem c3_resolver_amended :
    (∀ (sel : String) (p : SRule),
        sel.data.contains '&' = true →
        (resolveChars p).contains ',' = true →
        resolveChars (.nested sel p)
          = joinWith ", ".data
              (((splitChar ',' (resolveChars p)).map trimChars).map
                (fun q => replaceAllChar '&' q sel.data)))
      ∧ (resolveChars (.nested "&--x" (.root ".a, .b"))
          = joinWith ", ".data [".a--x".data, ".b--x".data])
      ∧ ∀ r : SRule, '&' ∉ (SRule.rootSelector r).data →
          '&' ∉ resolveChars r := by
  refine ⟨?_, by decide, resolveChars_no_amp⟩
  intro sel p h1 h2
  simp only [resolveChars]
  rw [if_pos h1, if_pos h2]

/-- Witness for C3 (amended): the `.a, .b` parent with child `&--x`, and
an `&`-free root rule. -/
theorem c3_resolver_amended_witness :
    (resolveChars (.nested "&--x" (.root ".a, .b"))
        = joinWith ", ".data
            (((splitChar ',' (resolveChars (.root ".a, .b"))).map trimChars).map
              (fun q => replaceAllChar '&' q ("&--x" : String).data)))
      ∧ '&' ∉ resolveChars (.root ".menu") :=
  ⟨c3_resolver_amended.1 "&--x" (.root ".a, .b") (by decide) (by decide),
    c3_resolver_amended.2.2 (.root ".menu") (by decide)⟩

/-! ## C6: boundary-aware class matching -/

/-- The claim description of a boundary-aware class occurrence: the
text contains a literal `.` followed by the class name, followed by
end-of-string or one of whitespace, `,`, `:`, `.`, `[`, `#`. -/
def classOccursBounded (c sel : String) : Prop :=
  ∃ pre rest, sel.data = pre ++ '.' :: c.data ++ rest
    ∧ (rest = [] ∨ ∃ ch tl2, rest = ch :: tl2 ∧ classBoundary ch = true)

theorem matchesHere_class_indep (v : String) (prev : Option Char)
    (cs : List Char) :
    matchesHere (.classPat v) prev cs = matchesHere (.classPat v) none cs :=
  rfl

theorem matchesHere_class_iff (v : String) (post : List Char) :
    matchesHere (.classPat v) none post = true
      ↔ ∃ rest, post = '.' :: v.data ++ rest
          ∧ boundaryOk classBoundary rest = true := by
  unfold matchesHere
  rw [Bool.and_eq_true, List.isPrefixOf_iff_prefix]
  constructor
  · rintro ⟨⟨rest, hrest⟩, hbound⟩
    refine ⟨rest, by rw [← hrest], ?_⟩
    have hdrop : post.drop (1 + v.data.length) = rest := by
      rw [← hrest]
      have hlen : 1 + v.data.length = ('.' :: v.data).length := by
        simp; omega
      rw [hlen, List.drop_left]
    rwa [hdrop] at hbound
  · rintro ⟨rest, rfl, hbound⟩
    refine ⟨⟨rest, rfl⟩, ?_⟩
    have hlen : 1 + v.data.length = ('.' :: v.data).length := by
      simp; omega
    rw [show ('.' :: v.data ++ rest) = ('.' :: v.data) ++ rest from rfl,
      hlen, List.drop_left]
    exact hbound

theorem scanPat_class_iff (v : String) :
    ∀ (cs : List Char) (prev : Option Char),
      scanPat (.classPat v) prev cs = true
        ↔ ∃ pre post, cs = pre ++ post
            ∧ matchesHere (.classPat v) none post = true
  | [], prev => by
    rw [scanPat, matchesHere_class_indep]
    constructor
    · intro h
      exact ⟨[], [], rfl, h⟩
    · rintro ⟨pre, post, hsplit, h⟩
      obtain ⟨rfl, rfl⟩ := List.append_eq_nil.mp hsplit.symm
      exact h
  | c :: cs, prev => by
    rw [scanPat, Bool.or_eq_true, matchesHere_class_indep]
    constructor
    · rintro (h | h)
      · exact ⟨[], c :: cs, rfl, h⟩
      · obtain ⟨pre, post, hsplit, hm⟩ := (scanPat_class_iff v cs (some c)).mp h
        exact ⟨c :: pre, post, by rw [hsplit]; rfl, hm⟩
    · rintro ⟨pre, post, hsplit, hm⟩
      cases pre with
      | nil =>
        rw [List.nil_append] at hsplit
        exact Or.inl (hsplit ▸ hm)
      | cons p ps =>
        rw [List.cons_append, List.cons.injEq] at hsplit
        exact Or.inr ((scanPat_class_iff v cs (some c)).mpr
          ⟨ps, post, hsplit.2, hm⟩)

theorem patternTest_class_iff (c sel : String) :
    patternTest (.classPat c) sel = true ↔ classOccursBounded c sel := by
  unfold patternTest classOccursBounded
  rw [scanPat_class_iff]
  constructor
  · rintro ⟨pre, post, hsplit, hm⟩
    obtain ⟨rest, rfl, hbound⟩ := (matchesHere_class_iff c post).mp hm
    refine ⟨pre, rest, by rw [hsplit]; simp, ?_⟩
    cases rest with
    | nil => exact Or.inl rfl
    | cons ch tl2 =>
      exact Or.inr ⟨ch, tl2, rfl, by simpa [boundaryOk] using hbound⟩
  · rintro ⟨pre, rest, hsplit, hb⟩
    refine ⟨pre, '.' :: c.data ++ rest, by rw [hsplit]; simp, ?_⟩
    rw [matchesHere_class_iff]
    refine ⟨rest, rfl, ?_⟩
    rcases hb with rfl | ⟨ch, tl2, rfl, hch⟩
    · rfl
    · simpa [boundaryOk] using hch

/-- First character of a label mismatching `class: ` refutes equality of
reason strings. -/
theorem label_ne_class {p v c : String} {x : Char} {xs : List Char}
    (hp : p.data = x :: xs) (hx : x ≠ 'c')
    (h : p ++ ": " ++ v = "class: " ++ c) : False := by
  have hd := congrArg String.data h
  have hd2 : (p.data ++ [':', ' ']) ++ v.data
      = ['c', 'l', 'a', 's', 's', ':', ' '] ++ c.data := hd
  rw [hp] at hd2
  rw [List.cons_append, List.cons_append] at hd2
  injection hd2 with h1 _
  exact hx h1

/-- Claim C6: for every class `c` of the target identity, the matcher
reports reason `class: c` if and only if the original or the
pseudo-class-expanded selector contains a literal `.` followed by `c`,
followed by end-of-string or one of whitespace, `,`, `:`, `.`, `[`, `#`;
consequently target class `btn` is never matched by a selector whose only
occurrence is `.btn-group`. -/
theorem c6_class_reason_iff :
    (∀ (info : TargetInfo) (sel c : String), c ∈ info.classes →
        ((("class: " ++ c) ∈
            (checkRuleMatch sel (buildTargetSelectors info)).reasons)
          ↔ (classOccursBounded c sel
              ∨ classOccursBounded c (expandModernPseudoClasses sel))))
      ∧ "class: btn" ∉ (checkRuleMatch ".btn-group"
          (buildTargetSelectors ⟨["btn"], [], "div", []⟩)).reasons := by
  constructor
  · intro info sel c hc
    simp only [checkRuleMatch, List.mem_filterMap]
    rw [← patternTest_class_iff, ← patternTest_class_iff]
    constructor
    · rintro ⟨t, ht, hft⟩
      by_cases hT : (patternTest t.pattern sel
          || patternTest t.pattern (expandModernPseudoClasses sel)) = true
      · rw [if_pos hT] at hft
        have hlabel : t.ptype ++ ": " ++ t.value = "class: " ++ c := by
          simpa using hft
        unfold buildTargetSelectors at ht
        simp only [List.mem_append, List.mem_map] at ht
        rcases ht with ((⟨cls, hcls, rfl⟩ | ⟨i, hi, rfl⟩) | hmid) | ⟨attr, ha, rfl⟩
        · have hv : cls = c := by
            have hd := congrArg String.data hlabel
            have hd2 : (['c', 'l', 'a', 's', 's'] ++ [':', ' ']) ++ cls.data
                = ['c', 'l', 'a', 's', 's', ':', ' '] ++ c.data := hd
            apply String.ext
            simpa using hd2
          subst hv
          simpa using hT
        · exact absurd hlabel (fun h => label_ne_class rfl (by decide) h)
        · have htagsel : t = ⟨"tag", info.tagName, .tagPat info.tagName⟩ := by
            rcases hcond : decide (0 < info.classes.length ∨ 0 < info.ids.length)
              with _ | _
            all_goals
              first
                | (rw [if_pos (of_decide_eq_true hcond)] at hmid
                   simpa using hmid)
                | (rw [if_neg (of_decide_eq_false hcond)] at hmid
                   simp at hmid)
          subst htagsel
          exact absurd hlabel (fun h => label_ne_class rfl (by decide) h)
        · exact absurd hlabel (fun h => label_ne_class rfl (by decide) h)
      · rw [if_neg hT] at hft
        simp at hft
    · intro hrhs
      refine ⟨⟨"class", c, .classPat c⟩, ?_, ?_⟩
      · unfold buildTargetSelectors
        exact List.mem_append_left _ (List.mem_append_left _
          (List.mem_append_left _ (List.mem_map_of_mem _ hc)))
      · have hT : (patternTest (Pattern.classPat c) sel
            || patternTest (Pattern.classPat c)
                (expandModernPseudoClasses sel)) = true := by
          rcases hrhs with h | h <;> simp [h]
        rw [if_pos hT]
        have : ("class" ++ ": " ++ c : String) = "class: " ++ c := by
          apply String.ext
          rfl
        rw [this]
  · decide

/-- Witness for C6: class `btn` against selector `.btn:hover`; the
reported reason yields a bounded occurrence in the original selector. -/
theorem c6_class_reason_iff_witness :
    classOccursBounded "btn" ".btn:hover"
      ∨ classOccursBounded "btn"
          (expandModernPseudoClasses ".btn:hover") :=
  (c6_class_reason_iff.1 ⟨["btn"], [], "div", []⟩ ".btn:hover" "btn"
      (by decide)).mp (by decide)

/-! ## C5: utility exemptions and the missing CSS-Modules patterns -/

/-- Claim C5 / code bug: the shipped `IGNORED_PATTERNS` table has no
CSS-Modules hashed-name entry, so `Btn_primary_a1b2c` matches no utility
pattern and, with zero CSS references, is reported as a ghost — although
the changelog (1.0.3 "CSS Modules: Component_name_hash patterns") and
`test/test-fixes.js` expect such classes to be exempt.  `flex` and
`is-active` do match table entries and are not reported. -/
theorem c5_cssmodules_ghost_bug :
    isUtility "Btn_primary_a1b2c" = false
      ∧ (detectGhostClasses ⟨["Btn_primary_a1b2c"], [], "div", []⟩
          [] [] []).ghostClasses = ["Btn_primary_a1b2c"]
      ∧ isUtility "flex" = true
      ∧ isUtility "is-active" = true
      ∧ (detectGhostClasses ⟨["flex", "is-active", "my-missing"], [], "div", []⟩
          [] [] []).ghostClasses = ["my-missing"] := by decide

/-! ## C8: the `hasGhosts` field -/

/-- Claim C8 counterexample: on an empty class list the early return of
`detectGhostClasses` carries no `hasGhosts` key at all (`undefined` in
JS, `none` here), so the field does not equal
`ghostClasses.length > 0` (which would be `false`). -/
theorem c8_hasghosts_counterexample :
    ¬ ((detectGhostClasses ⟨[], [], "div", []⟩ [] [] []).hasGhosts
        = some (decide (0 < (detectGhostClasses ⟨[], [], "div", []⟩
            [] [] []).ghostClasses.length))) := by decide

/-- Claim C8 (amended): the detector reads but never mutates the input
identity (it is a pure function of it); the returned `hasGhosts` equals
`ghostClasses.length > 0` whenever the class list is non-empty, and the
field is absent (`undefined`) on the empty-class-list early return. -/
theorem c8_hasghosts_amended (t : TargetInfo) (cs ls : List GhostResult)
    (istyles : List InlineStyle) :
    (detectGhostClasses t cs ls istyles).hasGhosts
      = if t.classes.isEmpty then none
        else some (decide
          (0 < (detectGhostClasses t cs ls istyles).ghostClasses.length)) := by
  by_cases h : t.classes.isEmpty
  · simp [detectGhostClasses, h]
  · simp [detectGhostClasses, h]

/-! ## C9: ghosts and defined classes -/

theorem ghostPred_true_iff (D : List String) (c : String) :
    ghostPred D c = true
      ↔ (dotName c ∉ D ∧ c ∉ D ∧ isUtility (cleanName c) = false) := by
  unfold ghostPred
  split_ifs with h1 h2 <;> simp_all
  tauto

theorem detectGhost_ghosts_of_nonempty (t : TargetInfo)
    (cs ls : List GhostResult) (istyles : List InlineStyle)
    (h : t.classes.isEmpty = false) :
    (detectGhostClasses t cs ls istyles).ghostClasses
      = t.classes.filter
          (ghostPred (detectGhostClasses t cs ls istyles).definedClasses) := by
  simp [detectGhostClasses, h]

theorem detectGhost_ghosts_of_empty (t : TargetInfo)
    (cs ls : List GhostResult) (istyles : List InlineStyle)
    (h : t.classes.isEmpty = true) :
    (detectGhostClasses t cs ls istyles).ghostClasses = [] := by
  simp [detectGhostClasses, h]

/-- Claim C9 counterexample: with target classes `foo` and `.foo` and a
CSS match whose selector is the bare `foo`, the detector reports `.foo`
as a ghost even though its undotted form `foo` is in the defined set: the
filter consults only the as-given and dot-prefixed forms, never the
undotted form of a dot-prefixed class. -/
theorem c9_dotted_ghost_counterexample :
    ".foo" ∈ (detectGhostClasses ⟨["foo", ".foo"], [], "div", []⟩
        [⟨[⟨[], "foo"⟩]⟩] [] []).ghostClasses
      ∧ cleanName ".foo" ∈ (detectGhostClasses ⟨["foo", ".foo"], [], "div", []⟩
        [⟨[⟨[], "foo"⟩]⟩] [] []).definedClasses := by decide

/-- Claim C9 (amended): the returned ghost list and defined set are
disjoint as exact strings, and a class present in the defined set under
its as-given or its dot-prefixed form is never reported as a ghost (the
undotted form of a dot-prefixed class is not consulted). -/
theorem c9_disjoint_amended (t : TargetInfo) (cs ls : List GhostResult)
    (istyles : List InlineStyle) :
    (∀ c ∈ (detectGhostClasses t cs ls istyles).ghostClasses,
        c ∉ (detectGhostClasses t cs ls istyles).definedClasses)
      ∧ ∀ c ∈ t.classes,
          (dotName c ∈ (detectGhostClasses t cs ls istyles).definedClasses
            ∨ c ∈ (detectGhostClasses t cs ls istyles).definedClasses) →
          c ∉ (detectGhostClasses t cs ls istyles).ghostClasses := by
  by_cases h : t.classes.isEmpty = true
  · constructor
    · intro c hcg
      rw [detectGhost_ghosts_of_empty t cs ls istyles h] at hcg
      cases hcg
    · intro c hcc
      rw [List.isEmpty_iff] at h
      rw [h] at hcc
      cases hcc
  · have hf : t.classes.isEmpty = false := by
      cases hv : t.classes.isEmpty
      · rfl
      · exact absurd hv h
    constructor
    · intro c hcg
      rw [detectGhost_ghosts_of_nonempty t cs ls istyles hf] at hcg
      have hp := (ghostPred_true_iff _ _).mp (List.mem_filter.mp hcg).2
      exact hp.2.1
    · intro c hcc hdef hcg
      rw [detectGhost_ghosts_of_nonempty t cs ls istyles hf] at hcg
      have hp := (ghostPred_true_iff _ _).mp (List.mem_filter.mp hcg).2
      rcases hdef with hd | hd
      · exact hp.1 hd
      · exact hp.2.1 hd

/-- Witness for C9 (amended): the ghost `yy` is not among the defined
classes, and the defined class `xx` (present under its dotted form) is
not a ghost. -/
theorem c9_disjoint_amended_witness :
    "yy" ∉ (detectGhostClasses ⟨["xx", "yy"], [], "div", []⟩
        [⟨[⟨["class: xx"], ".xx"⟩]⟩] [] []).definedClasses
      ∧ "xx" ∉ (detectGhostClasses ⟨["xx", "yy"], [], "div", []⟩
        [⟨[⟨["class: xx"], ".xx"⟩]⟩] [] []).ghostClasses :=
  ⟨(c9_disjoint_amended _ _ _ _).1 "yy" (by decide),
    (c9_disjoint_amended _ _ _ _).2 "xx" (by decide) (Or.inl (by decide))⟩

end CodeScoop
